import Mathlib

/-!
# Verification of the NILC-at-CWI-2018 data loader (`data.py`)

A shallow embedding of the repository's single source file `data.py`:
the character-scanning tokenizer of `Instance.tokenize`, the row parser
`Instance.__init__`, and the file loader `Data.load_data`, together with
theorems settling the specification's claims about them.

Python strings are modelled as `List Char` (Python indexes by code point),
Python ints as `Int`, Python floats that the loader parses from decimal
literals as `ℚ`, and fallible operations as `Option`/`Except`.
-/

namespace CWI

/-- Python slice `s[a:b]` for `0 ≤ a, b` (empty when `a ≥ b`). -/
def pySlice (s : List Char) (a b : Nat) : List Char :=
  (s.drop a).take (b - a)

/-- Python `str.lower()` on a slice; `data.py` only lowercases ASCII letters
in practice, which `Char.toLower` models. -/
def lowerStr (cs : List Char) : String :=
  String.mk (cs.map Char.toLower)

/-- `endings = ['?', '”', '"', '!', ')', '.']` from `tokenize`. -/
def endings : List Char := ['?', '”', '"', '!', ')', '.']

/-- The membership list of the third branch,
`endings + [',', ':', ';', '(', ')', '', '…', '[', ']']`.  The Python list
also contains the empty string `''`, which a one-character string can never
equal, so it is dropped here. -/
def breakers : List Char := endings ++ [',', ':', ';', '(', ')', '…', '[', ']']

/-- State of the `tokenize` scan: the `tokens` list, the `target` dict
(a Python `dict` keyed by token indices; insertion-ordered keys are modelled
as a duplicate-free list), and the pending-span `start` index. -/
structure TokState where
  tokens : List String
  target : List Nat
  start : Nat
deriving DecidableEq, Repr

/-- `target[k] = True` on a Python dict: append the key if it is new. -/
def recordTarget (t : List Nat) (k : Nat) : List Nat :=
  if k ∈ t then t else t ++ [k]

/-- The guard `if i in range(self.offset[0], self.offset[1]):
target[len(tokens)] = True` executed at the start of each loop iteration. -/
def recordStep (off : Int × Int) (i : Nat) (st : TokState) : TokState :=
  if off.1 ≤ (i : Int) ∧ (i : Int) < off.2 then
    { st with target := recordTarget st.target st.tokens.length }
  else st

/-- The `if/elif` chain on `self.sentence[i]` (here `c`): space flushes a
non-empty pending slice; an apostrophe flushes the pending slice
unconditionally and restarts the span at the apostrophe; a breaking
punctuation character flushes a positive-length pending slice and emits
itself; `'"'` or `'“'` emits itself when `i - start >= 0` (the straight
quote `'"'` is unreachable here, being caught by the breaker branch).
Each conditional `tokens.append` is modelled as appending a conditional
sublist. -/
def charStep (sent : List Char) (c : Char) (i : Nat) (st : TokState) : TokState :=
  if c = ' ' then
    { st with
      tokens := st.tokens ++
        (if pySlice sent st.start i ≠ [] then [lowerStr (pySlice sent st.start i)] else []),
      start := i + 1 }
  else if c = '\'' then
    { st with tokens := st.tokens ++ [lowerStr (pySlice sent st.start i)], start := i }
  else if c ∈ breakers then
    { st with
      tokens := st.tokens ++
        (if st.start < i then [lowerStr (pySlice sent st.start i)] else []) ++
        [lowerStr (pySlice sent i (i + 1))],
      start := i + 1 }
  else if c = '"' ∨ c = '“' then
    { st with
      tokens := st.tokens ++
        (if st.start ≤ i then [lowerStr (pySlice sent i (i + 1))] else []),
      start := i + 1 }
  else st

/-- The trailing flush `if i == len(self.sentence)-1 and self.sentence[i]
not in endings: tokens.append(self.sentence[start:].lower())`, executed
after the branch chain with the updated `start`. -/
def tailStep (sent : List Char) (c : Char) (i : Nat) (st : TokState) : TokState :=
  if i = sent.length - 1 ∧ c ∉ endings then
    { st with tokens := st.tokens ++ [lowerStr (sent.drop st.start)] }
  else st

/-- The loop `for i in range(len(self.sentence))` of `tokenize`;
`rem` is `sent.drop i`, so the head of `rem` is `self.sentence[i]`. -/
def tokenizeAux (sent : List Char) (off : Int × Int) :
    List Char → Nat → TokState → TokState
  | [], _, st => st
  | c :: rest, i, st =>
      tokenizeAux sent off rest (i + 1) (tailStep sent c i (charStep sent c i (recordStep off i st)))

/-- `Instance.tokenize`: returns `(tokens, list(target.keys()))`. -/
def tokenize (sent : List Char) (off : Int × Int) : List String × List Nat :=
  let st := tokenizeAux sent off sent 0 { tokens := [], target := [], start := 0 }
  (st.tokens, st.target)

/-- Digit accumulator for `parseInt`: consumes decimal digits only. -/
def parseNatAux : List Char → Nat → Option Nat
  | [], acc => some acc
  | c :: cs, acc =>
      if c.isDigit then parseNatAux cs (acc * 10 + (c.toNat - '0'.toNat)) else none

/-- A non-empty run of decimal digits, as a `Nat`. -/
def parseNatDigits (cs : List Char) : Option Nat :=
  if cs = [] then none else parseNatAux cs 0

/-- Models Python `int()` on the decimal integer literals the loader reads:
optional sign followed by at least one digit; anything else raises
`ValueError`, modelled as `none`. -/
def parseInt (s : String) : Option Int :=
  match s.data with
  | '-' :: cs => (parseNatDigits cs).map (fun n => -(n : Int))
  | '+' :: cs => (parseNatDigits cs).map (fun n => (n : Int))
  | cs => (parseNatDigits cs).map (fun n => (n : Int))

/-- Value of a digit run, total (digits already checked). -/
def natOfDigits (cs : List Char) : Nat :=
  cs.foldl (fun acc c => acc * 10 + (c.toNat - '0'.toNat)) 0

/-- Unsigned decimal: `digits`, `digits.digits`, `digits.` or `.digits`,
with value `intPart.frac = (intPart·10^k + frac) / 10^k`. -/
def parseDecimal (cs : List Char) : Option ℚ :=
  let intPart := cs.takeWhile Char.isDigit
  let rest := cs.dropWhile Char.isDigit
  match rest with
  | [] => if intPart = [] then none else some (mkRat (natOfDigits intPart) 1)
  | '.' :: frac =>
      if frac.all Char.isDigit ∧ (intPart ≠ [] ∨ frac ≠ []) then
        some (mkRat (natOfDigits intPart * 10 ^ frac.length + natOfDigits frac)
          (10 ^ frac.length))
      else none
  | _ => none

/-- Models Python `float()` on the decimal literals the loader reads
(the probabilistic label): optional sign and a plain decimal numeral.
Failure (`ValueError`) is `none`. -/
def parseFloat (s : String) : Option ℚ :=
  match s.data with
  | '-' :: cs => (parseDecimal cs).map Rat.neg
  | '+' :: cs => parseDecimal cs
  | cs => parseDecimal cs

/-- One annotated row, as built by `Instance.__init__`.  `target` is the
sorted `self.target`; `difficult` and `label` are `None` for test rows. -/
structure Instance where
  hit_id : String
  sentence : String
  offset : Int × Int
  target_chars : String
  annotators : Int × Int
  tokens : List String
  target : List Nat
  difficult : Option (Int × Int)
  label : Option (Int × ℚ)
deriving DecidableEq, Repr

/-- The field assignments of `Instance.__init__` once every numeric field
has parsed: tokenize the sentence, then sort the target indices. -/
def buildInstance (hit sentence tchars : String) (off : Int × Int)
    (ann : Int × Int) (difficult : Option (Int × Int)) (label : Option (Int × ℚ)) :
    Instance :=
  let tt := tokenize sentence.data off
  { hit_id := hit
    sentence := sentence
    offset := off
    target_chars := tchars
    annotators := ann
    tokens := tt.1
    target := List.insertionSort (· ≤ ·) tt.2
    difficult := difficult
    label := label }

/-- The labeled-row tail of `Instance.__init__`: `self.label = [int(f9),
float(f10)]` and `self.difficult = [int(f7), int(f8)]`. -/
def mkLabeled (fields : List String) : Option ((Int × Int) × (Int × ℚ)) :=
  match parseInt (fields.getD 9 ""), parseFloat (fields.getD 10 ""),
      parseInt (fields.getD 7 ""), parseInt (fields.getD 8 "") with
  | some lb, some lp, some d0, some d1 => some ((d0, d1), (lb, lp))
  | _, _, _, _ => none

/-- `Instance.__init__(sentence, test)` over the field list: the field
accesses and `int()`/`float()` parses of the source; a failed parse
(Python `ValueError`) yields `none`.  Field lookups use `getD ""`: a
missing numeric index makes its parse fail, matching Python's
`IndexError`, and construction succeeds only when every accessed index is
present (the loader's `assert` has fixed the field count anyway). -/
def mkInstance (fields : List String) (test : Bool) : Option Instance :=
  match parseInt (fields.getD 2 ""), parseInt (fields.getD 3 ""),
      parseInt (fields.getD 5 ""), parseInt (fields.getD 6 "") with
  | some o0, some o1, some a0, some a1 =>
      if test then
        some (buildInstance (fields.getD 0 "") (fields.getD 1 "") (fields.getD 4 "")
          (o0, o1) (a0, a1) none none)
      else
        match mkLabeled fields with
        | some (d, lab) =>
            some (buildInstance (fields.getD 0 "") (fields.getD 1 "") (fields.getD 4 "")
              (o0, o1) (a0, a1) (some d) (some lab))
        | none => none
  | _, _, _, _ => none

/-- Python `str.split(sep)` on a character list (always at least one part). -/
def splitOnChar (sep : Char) : List Char → List (List Char)
  | [] => [[]]
  | c :: cs =>
      match splitOnChar sep cs with
      | [] => [[]]
      | g :: gs => if c = sep then [] :: g :: gs else (c :: g) :: gs

/-- `line.split('\t')`. -/
def splitTab (s : String) : List String :=
  (splitOnChar '\t' s.data).map String.mk

/-- Python `str.splitlines()` for newline-separated text: like splitting on
`'\n'`, except that the empty string has no lines and a trailing newline
adds no empty final line. -/
def splitLinesPy (s : String) : List String :=
  if s.data = [] then []
  else
    let parts := splitOnChar '\n' s.data
    (if parts.getLast? = some [] then parts.dropLast else parts).map String.mk

/-- The two loader failure kinds: `FormatError` covers the field-count
`assert` and numeric-parse failures; `IOError` an unreadable file. -/
inductive LoadError where
  | formatError
  | ioError
deriving DecidableEq, Repr

/-- The number of fields the `assert` demands: 7 in test mode, 11 otherwise. -/
def expectedFields (test : Bool) : Nat := if test then 7 else 11

/-- The per-line instance-construction loop of `load_data`. -/
def mkInstances (test : Bool) : List (List String) → Option (List Instance)
  | [] => some []
  | line :: rest =>
      match mkInstance line test, mkInstances test rest with
      | some inst, some insts => some (inst :: insts)
      | _, _ => none

/-- One `dataset` iteration of `load_data`: split the file's text into
tab-separated lines, `assert` every line's field count, then construct one
`Instance` per line.  `none` models a raised `FormatError`. -/
def loadFile (content : String) (test : Bool) : Option (List Instance) :=
  let lines := (splitLinesPy content).map splitTab
  if lines.all (fun line => line.length = expectedFields test) then
    mkInstances test lines
  else none

/-- The `for dataset in datasets` loop: read each file through `fs`
(`none` models an unreadable file) and concatenate the per-file instances,
first failure aborting everything. -/
def loadFiles (fs : String → Option String) (test : Bool) :
    List String → Except LoadError (List Instance)
  | [] => .ok []
  | f :: rest =>
      match fs f with
      | none => .error .ioError
      | some content =>
          match loadFile content test with
          | none => .error .formatError
          | some insts =>
              match loadFiles fs test rest with
              | .ok more => .ok (insts ++ more)
              | .error e => .error e

/-- `[instance.label for instance in self.instances]`, failing if any label
is `None` (Python would raise on the subscript). -/
def extractLabels : List Instance → Option (List (Int × ℚ))
  | [] => some []
  | inst :: rest =>
      match inst.label, extractLabels rest with
      | some lab, some labs => some (lab :: labs)
      | _, _ => none

/-- The `Data` object after `load_data`: `y`/`y_prob` stay `[]` in test mode. -/
structure Dataset where
  instances : List Instance
  y : List Int
  y_prob : List ℚ
  test : Bool
deriving DecidableEq, Repr

/-- `Data.__init__` + `load_data`: load every listed file, then in non-test
mode derive the two parallel label arrays. -/
def load (fs : String → Option String) (files : List String) (test : Bool) :
    Except LoadError Dataset :=
  match loadFiles fs test files with
  | .error e => .error e
  | .ok instances =>
      if test then .ok { instances := instances, y := [], y_prob := [], test := test }
      else
        match extractLabels instances with
        | none => .error .formatError
        | some labs =>
            .ok { instances := instances, y := labs.map Prod.fst,
                  y_prob := labs.map Prod.snd, test := test }

end CWI

namespace CWI

/-- The labeled example row of the spec's scenario, already split on tabs:
`"H1\tThe cat's toy.\t4\t9\tcat's \t5\t2\t1\t0\t1\t0.33"`. -/
def sampleRow : List String :=
  ["H1", "The cat's toy.", "4", "9", "cat's ", "5", "2", "1", "0", "1", "0.33"]

/-- The instance the parser builds from `sampleRow`. -/
def sampleInstance : Instance :=
  buildInstance "H1" "The cat's toy." "cat's " (4, 9) (5, 2) (some (1, 0))
    (some (1, mkRat 33 100))

/-- The value `0.33` stored for the example row is the rational `33/100`. -/
theorem sample_label_value : mkRat 33 100 = (33 : ℚ) / 100 := by
  norm_num [Rat.mkRat_eq_div]

end CWI

namespace CWI

/-- Claim C1: for the labeled input row with hit_id "H1", sentence
"The cat's toy.", start 4, end 9, target_chars "cat's ", annotator counts
(5, 2), difficult counts (1, 0), binary label 1, probabilistic label 0.33,
the constructed Instance has tokens `["the", "cat", "'s", "toy", "."]`,
target token indices `[1, 2]`, and label `(1, 0.33)`. -/
theorem claim1_example_row :
    (mkInstance sampleRow false).map (fun inst => (inst.tokens, inst.target, inst.label)) =
      some (["the", "cat", "'s", "toy", "."], [1, 2], some (1, mkRat 33 100)) := by
  decide

/-- Claim C10: the curly opening quote `“` with pending text emits itself
without flushing, losing the pending text (`"ab“c"` tokenizes to
`["“", "c"]`), whereas the straight quote `"` is in the sentence-ending
set and flushes the pending text first (`"ab\"c"` tokenizes to
`["ab", "\"", "c"]`). -/
theorem claim10_quote_branches :
    (tokenize "ab“c".data (0, 0)).1 = ["“", "c"] ∧
    (tokenize "ab\"c".data (0, 0)).1 = ["ab", "\"", "c"] := by
  decide

/-- A labeled row whose target span `[4, 4)` has length zero. -/
def zeroSpanRow : List String :=
  ["H1", "The cat's toy.", "4", "4", "", "5", "2", "1", "0", "1", "0.33"]

/-- The instance built from `zeroSpanRow`. -/
def zeroSpanInstance : Instance :=
  buildInstance "H1" "The cat's toy." "" (4, 4) (5, 2) (some (1, 0))
    (some (1, mkRat 33 100))

/-- Claim C3, counterexample: at sentence "The cat's toy." and position
`p = 4` (a valid character position), the zero-length span `(4, 4)` yields
an EMPTY `target_token_indices`, not a non-empty one: Python's
`range(4, 4)` contains no index, so no token is ever recorded. -/
theorem claim3_counterexample :
    mkInstance zeroSpanRow false = some zeroSpanInstance ∧
      zeroSpanInstance.target = [] := by
  decide

/-- A labeled row whose sentence is the single character `'`. -/
def apostropheRow : List String :=
  ["H1", "'", "0", "1", "'", "5", "2", "1", "0", "1", "0.33"]

/-- The instance built from `apostropheRow`: its tokens are `["", "'"]`. -/
def apostropheInstance : Instance :=
  buildInstance "H1" "'" "'" (0, 1) (5, 2) (some (1, 0)) (some (1, mkRat 33 100))

/-- Claim C4, counterexample: the tokenizer CAN emit an empty token.  For
the sentence `"'"` the apostrophe branch appends the pending slice
`sentence[0:0] = ""` unconditionally, so the token list is `["", "'"]`. -/
theorem claim4_counterexample :
    mkInstance apostropheRow false = some apostropheInstance ∧
      "" ∈ apostropheInstance.tokens := by
  decide

/-- A labeled row whose offsets `5, 3` are decreasing and exceed the
two-character sentence. -/
def badOffsetRow : List String :=
  ["H1", "ab", "5", "3", "x", "1", "1", "0", "0", "0", "0.5"]

/-- The instance built from `badOffsetRow`. -/
def badOffsetInstance : Instance :=
  buildInstance "H1" "ab" "x" (5, 3) (1, 1) (some (0, 0)) (some (0, mkRat 5 10))

/-- Claim C6, counterexample: `Instance.__init__` performs no validation of
the offsets, so a parser-constructed instance can violate
`offset.start <= offset.end <= len(sentence)`: from `badOffsetRow` it
builds an instance with offset `(5, 3)` over the sentence `"ab"`. -/
theorem claim6_counterexample :
    mkInstance badOffsetRow false = some badOffsetInstance ∧
      ¬ (badOffsetInstance.offset.1 ≤ badOffsetInstance.offset.2 ∧
          badOffsetInstance.offset.2 ≤ (badOffsetInstance.sentence.length : Int)) := by
  decide

end CWI

namespace CWI

theorem recordStep_tokens (off : Int × Int) (i : Nat) (st : TokState) :
    (recordStep off i st).tokens = st.tokens := by
  unfold recordStep; split_ifs <;> rfl

theorem recordStep_start (off : Int × Int) (i : Nat) (st : TokState) :
    (recordStep off i st).start = st.start := by
  unfold recordStep; split_ifs <;> rfl

theorem recordStep_target_mem (off : Int × Int) (i : Nat) (st : TokState) (k : Nat)
    (hk : k ∈ (recordStep off i st).target) : k ∈ st.target ∨ k = st.tokens.length := by
  unfold recordStep recordTarget at hk
  split_ifs at hk <;> simp_all

theorem charStep_target (sent : List Char) (c : Char) (i : Nat) (st : TokState) :
    (charStep sent c i st).target = st.target := by
  unfold charStep; split_ifs <;> rfl

theorem tailStep_target (sent : List Char) (c : Char) (i : Nat) (st : TokState) :
    (tailStep sent c i st).target = st.target := by
  unfold tailStep; split_ifs <;> rfl

theorem charStep_tokens_le (sent : List Char) (c : Char) (i : Nat) (st : TokState) :
    st.tokens.length ≤ (charStep sent c i st).tokens.length := by
  unfold charStep; split_ifs <;> simp

theorem tailStep_tokens_le (sent : List Char) (c : Char) (i : Nat) (st : TokState) :
    st.tokens.length ≤ (tailStep sent c i st).tokens.length := by
  unfold tailStep; split_ifs <;> simp

theorem charStep_start_le (sent : List Char) (c : Char) (i : Nat) (st : TokState)
    (h : st.start ≤ i) : (charStep sent c i st).start ≤ i + 1 := by
  unfold charStep
  split_ifs <;> first
  | omega
  | (simp only [TokState.mk.injEq]
     omega)

theorem tailStep_start (sent : List Char) (c : Char) (i : Nat) (st : TokState) :
    (tailStep sent c i st).start = st.start := by
  unfold tailStep; split_ifs <;> rfl

theorem endings_subset_breakers : ∀ c, c ∈ endings → c ∈ breakers := by
  intro c hc
  simp only [breakers, List.mem_append]
  exact Or.inl hc

/-- At the final loop iteration (`i = len(sentence) - 1`), at least one
token is appended after the target-recording guard: every branch of the
character dispatch either appends a token itself or leaves the trailing
flush to fire. -/
theorem stepChain_tokens_lt (sent : List Char) (off : Int × Int) (c : Char) (i : Nat)
    (st : TokState) (hlen : sent.length = i + 1) (hstart : st.start ≤ i) :
    st.tokens.length <
      (tailStep sent c i (charStep sent c i (recordStep off i st))).tokens.length := by
  have hrt := recordStep_tokens off i st
  have hrs := recordStep_start off i st
  set st1 := recordStep off i st with hst1
  have hstart1 : st1.start ≤ i := by rw [hrs]; exact hstart
  rw [← hrt]
  have hlast : i = sent.length - 1 := by omega
  by_cases h1 : c = ' '
  · -- space appends maybe nothing, but the trailing flush fires
    have hcs : (charStep sent c i st1).tokens.length ≥ st1.tokens.length :=
      charStep_tokens_le sent c i st1
    have : (tailStep sent c i (charStep sent c i st1)).tokens.length =
        (charStep sent c i st1).tokens.length + 1 := by
      unfold tailStep
      rw [if_pos ⟨hlast, by subst h1; decide⟩]
      simp
    omega
  · by_cases h2 : c = '\''
    · have : (charStep sent c i st1).tokens.length = st1.tokens.length + 1 := by
        unfold charStep
        rw [if_neg h1, if_pos h2]
        simp
      have := tailStep_tokens_le sent c i (charStep sent c i st1)
      omega
    · by_cases h3 : c ∈ breakers
      · have : (charStep sent c i st1).tokens.length ≥ st1.tokens.length + 1 := by
          unfold charStep
          rw [if_neg h1, if_neg h2, if_pos h3]
          simp
        have := tailStep_tokens_le sent c i (charStep sent c i st1)
        omega
      · by_cases h4 : c = '"' ∨ c = '“'
        · have : (charStep sent c i st1).tokens.length = st1.tokens.length + 1 := by
            unfold charStep
            rw [if_neg h1, if_neg h2, if_neg h3, if_pos h4, if_pos hstart1]
            simp
          have := tailStep_tokens_le sent c i (charStep sent c i st1)
          omega
        · -- ordinary character: the branch chain is the identity and the
          -- trailing flush fires because c is not a sentence ending
          have hce : c ∉ endings := fun hc => h3 (endings_subset_breakers c hc)
          have hcs : charStep sent c i st1 = st1 := by
            unfold charStep
            rw [if_neg h1, if_neg h2, if_neg h3, if_neg h4]
          rw [hcs]
          unfold tailStep
          rw [if_pos ⟨hlast, hce⟩]
          simp

end CWI

namespace CWI

/-- The full loop body preserves the invariant that every recorded target
index is at most the current token count. -/
theorem stepChain_target_le (sent : List Char) (off : Int × Int) (c : Char) (i : Nat)
    (st : TokState) (h : ∀ k ∈ st.target, k ≤ st.tokens.length) :
    ∀ k ∈ (tailStep sent c i (charStep sent c i (recordStep off i st))).target,
      k ≤ (tailStep sent c i (charStep sent c i (recordStep off i st))).tokens.length := by
  intro k hk
  rw [tailStep_target, charStep_target] at hk
  have hle : st.tokens.length ≤
      (tailStep sent c i (charStep sent c i (recordStep off i st))).tokens.length := by
    have h1 := charStep_tokens_le sent c i (recordStep off i st)
    have h2 := tailStep_tokens_le sent c i (charStep sent c i (recordStep off i st))
    rw [recordStep_tokens] at h1
    omega
  rcases recordStep_target_mem off i st k hk with h1 | h1
  · exact le_trans (h k h1) hle
  · omega

theorem stepChain_start_le (sent : List Char) (off : Int × Int) (c : Char) (i : Nat)
    (st : TokState) (h : st.start ≤ i) :
    (tailStep sent c i (charStep sent c i (recordStep off i st))).start ≤ i + 1 := by
  rw [tailStep_start]
  exact charStep_start_le sent c i _ (by rw [recordStep_start]; exact h)

/-- Core invariant run: starting the loop at position `i` with `rem =
sentence[i:]` non-empty, every final target index is a valid index into the
final token list (the final iteration always appends a token after the
recording guard). -/
theorem tokenizeAux_target_lt (sent : List Char) (off : Int × Int) (rem : List Char) :
    ∀ (i : Nat) (st : TokState),
      sent.length = i + rem.length → st.start ≤ i →
      (∀ k ∈ st.target, k ≤ st.tokens.length) → rem ≠ [] →
      ∀ k ∈ (tokenizeAux sent off rem i st).target,
        k < (tokenizeAux sent off rem i st).tokens.length := by
  induction rem with
  | nil => intro i st _ _ _ hne; exact absurd rfl hne
  | cons c rest ih =>
    intro i st hlen hstart hbound _
    by_cases hrest : rest = []
    · subst hrest
      intro k hk
      simp only [tokenizeAux] at hk ⊢
      have h1 : k ≤ st.tokens.length := by
        rw [tailStep_target, charStep_target] at hk
        rcases recordStep_target_mem off i st k hk with h | h
        · exact hbound k h
        · omega
      have h2 := stepChain_tokens_lt sent off c i st (by simp at hlen; omega) hstart
      omega
    · intro k hk
      simp only [tokenizeAux] at hk ⊢
      refine ih (i + 1) _ ?_ ?_ ?_ hrest k hk
      · simp at hlen ⊢
        omega
      · exact stepChain_start_le sent off c i st hstart
      · exact stepChain_target_le sent off c i st hbound

theorem recordTarget_nodup (t : List Nat) (k : Nat) (h : t.Nodup) :
    (recordTarget t k).Nodup := by
  unfold recordTarget
  split_ifs with hk
  · exact h
  · simpa [List.nodup_append] using ⟨h, hk⟩

theorem tokenizeAux_target_nodup (sent : List Char) (off : Int × Int) (rem : List Char) :
    ∀ (i : Nat) (st : TokState), st.target.Nodup →
      (tokenizeAux sent off rem i st).target.Nodup := by
  induction rem with
  | nil => intro i st h; exact h
  | cons c rest ih =>
    intro i st h
    simp only [tokenizeAux]
    refine ih (i + 1) _ ?_
    rw [tailStep_target, charStep_target]
    unfold recordStep
    split_ifs
    · exact recordTarget_nodup st.target st.tokens.length h
    · exact h

/-- Every target index `tokenize` returns is a valid index into the
returned token list. -/
theorem tokenize_target_lt (sent : List Char) (off : Int × Int) :
    ∀ k ∈ (tokenize sent off).2, k < (tokenize sent off).1.length := by
  intro k hk
  unfold tokenize at hk ⊢
  match hs : sent with
  | [] => simp [tokenizeAux] at hk
  | c :: rest =>
      exact tokenizeAux_target_lt (c :: rest) off (c :: rest) 0
        { tokens := [], target := [], start := 0 } (by simp) (by simp)
        (by intro k hk; simp at hk) (by simp) k hk

/-- The target index list `tokenize` returns has no duplicates. -/
theorem tokenize_target_nodup (sent : List Char) (off : Int × Int) :
    (tokenize sent off).2.Nodup := by
  unfold tokenize
  exact tokenizeAux_target_nodup sent off sent 0 _ (by simp)

end CWI

namespace CWI

theorem buildInstance_target (hit s tchars : String) (off : Int × Int)
    (ann : Int × Int) (d : Option (Int × Int)) (l : Option (Int × ℚ)) :
    (buildInstance hit s tchars off ann d l).target =
      List.insertionSort (· ≤ ·) (tokenize s.data off).2 := rfl

theorem buildInstance_tokens (hit s tchars : String) (off : Int × Int)
    (ann : Int × Int) (d : Option (Int × Int)) (l : Option (Int × ℚ)) :
    (buildInstance hit s tchars off ann d l).tokens = (tokenize s.data off).1 := rfl

theorem buildInstance_offset (hit s tchars : String) (off : Int × Int)
    (ann : Int × Int) (d : Option (Int × Int)) (l : Option (Int × ℚ)) :
    (buildInstance hit s tchars off ann d l).offset = off := rfl

theorem buildInstance_sentence (hit s tchars : String) (off : Int × Int)
    (ann : Int × Int) (d : Option (Int × Int)) (l : Option (Int × ℚ)) :
    (buildInstance hit s tchars off ann d l).sentence = s := rfl

/-- Inversion of the row parser: every successfully constructed instance
is `buildInstance` applied to the row's fields, with the offsets coming
from the integer parses of fields 2 and 3. -/
theorem mkInstance_inv (fields : List String) (test : Bool) (inst : Instance)
    (h : mkInstance fields test = some inst) :
    ∃ o0 o1 a0 a1 d l,
      parseInt (fields.getD 2 "") = some o0 ∧ parseInt (fields.getD 3 "") = some o1 ∧
      inst = buildInstance (fields.getD 0 "") (fields.getD 1 "") (fields.getD 4 "")
        (o0, o1) (a0, a1) d l := by
  unfold mkInstance at h
  split at h
  · rename_i o0 o1 a0 a1 h2 h3 h5 h6
    split at h
    · exact ⟨o0, o1, a0, a1, none, none, h2, h3, (Option.some.inj h).symm⟩
    · split at h
      · rename_i dd lab hdl
        exact ⟨o0, o1, a0, a1, some dd, some lab, h2, h3, (Option.some.inj h).symm⟩
      · exact Option.noConfusion h
  · exact Option.noConfusion h

/-- Claim C2: for every Instance constructed from a row, the target token
index list is strictly increasing (hence duplicate-free) and every element
is a valid index into `tokens`. -/
theorem claim2_target_indices (fields : List String) (test : Bool) (inst : Instance)
    (h : mkInstance fields test = some inst) :
    inst.target.Sorted (· < ·) ∧ ∀ k ∈ inst.target, k < inst.tokens.length := by
  obtain ⟨o0, o1, a0, a1, d, l, _, _, rfl⟩ := mkInstance_inv fields test inst h
  rw [buildInstance_target, buildInstance_tokens]
  constructor
  · have hs := List.sorted_insertionSort (· ≤ ·)
      (tokenize ((fields.getD 1 "").data) (o0, o1)).2
    have hn : (List.insertionSort (· ≤ ·)
        (tokenize ((fields.getD 1 "").data) (o0, o1)).2).Nodup :=
      (List.perm_insertionSort _ _).nodup_iff.mpr (tokenize_target_nodup _ _)
    exact hs.lt_of_le hn
  · intro k hk
    exact tokenize_target_lt _ _ k ((List.perm_insertionSort _ _).mem_iff.mp hk)

/-- Witness for Claim C2 at the spec's example row. -/
theorem claim2_witness : sampleInstance.target.Sorted (· < ·) :=
  (claim2_target_indices sampleRow false sampleInstance (by decide)).1

theorem tokenizeAux_target_const (sent : List Char) (off : Int × Int)
    (hge : off.2 ≤ off.1) (rem : List Char) :
    ∀ (i : Nat) (st : TokState), (tokenizeAux sent off rem i st).target = st.target := by
  induction rem with
  | nil => intro i st; rfl
  | cons c rest ih =>
    intro i st
    simp only [tokenizeAux]
    rw [ih, tailStep_target, charStep_target]
    unfold recordStep
    rw [if_neg]
    intro hc
    omega

/-- Claim C3, amended: a zero-length target span `(p, p)` records no token
index at all — `range(p, p)` is empty — so `target_token_indices` is empty,
for every sentence and every position `p`. -/
theorem claim3_amended (hit s tchars : String) (p : Int) (ann : Int × Int)
    (d : Option (Int × Int)) (l : Option (Int × ℚ)) :
    (buildInstance hit s tchars (p, p) ann d l).target = [] := by
  rw [buildInstance_target]
  have h2 : (tokenize s.data (p, p)).2 = [] := by
    unfold tokenize
    exact tokenizeAux_target_const s.data (p, p) le_rfl s.data 0 _
  rw [h2]
  rfl

end CWI

namespace CWI

/-- Claim C6, amended: `Instance.__init__` copies the offsets verbatim from
the parsed integer fields and performs no validation, so the invariant
`offset.start <= offset.end <= len(sentence)` holds exactly for instances
whose row already satisfies it: if the parsed offsets of fields 2 and 3
satisfy it, the constructed instance does. -/
theorem claim6_amended (fields : List String) (test : Bool) (inst : Instance)
    (o0 o1 : Int) (h : mkInstance fields test = some inst)
    (h2 : parseInt (fields.getD 2 "") = some o0)
    (h3 : parseInt (fields.getD 3 "") = some o1)
    (hle : o0 ≤ o1) (hub : o1 ≤ (inst.sentence.length : Int)) :
    inst.offset.1 ≤ inst.offset.2 ∧ inst.offset.2 ≤ (inst.sentence.length : Int) := by
  obtain ⟨p0, p1, a0, a1, d, l, hp2, hp3, rfl⟩ := mkInstance_inv fields test inst h
  obtain rfl : p0 = o0 := Option.some.inj (hp2.symm.trans h2)
  obtain rfl : p1 = o1 := Option.some.inj (hp3.symm.trans h3)
  rw [buildInstance_offset]
  exact ⟨hle, hub⟩

/-- Witness for Claim C6 (amended) at the spec's example row, whose offsets
`4 <= 9 <= 14` are valid. -/
theorem claim6_witness :
    sampleInstance.offset.1 ≤ sampleInstance.offset.2 ∧
      sampleInstance.offset.2 ≤ (sampleInstance.sentence.length : Int) :=
  claim6_amended sampleRow false sampleInstance 4 9 (by decide) (by decide)
    (by decide) (by decide) (by decide)

end CWI

namespace CWI

/-- The final-sentence characters that close their own token and leave an
empty pending span for the trailing flush: the space, the breaking
punctuation marks outside the sentence-ending set, and the curly opening
quote. -/
def badLastChars : List Char := [' ', ',', ':', ';', '(', '…', '[', ']', '“']

theorem breakers_cases : ∀ c ∈ breakers, c ∈ endings ∨ c ∈ badLastChars := by
  decide

theorem lowerStr_ne_empty (cs : List Char) (h : cs ≠ []) : lowerStr cs ≠ "" := by
  intro he
  apply h
  have hd := congrArg String.data he
  simp only [lowerStr] at hd
  exact List.map_eq_nil_iff.mp hd

theorem pySlice_ne_empty (s : List Char) (a b : Nat) (h1 : a < b) (h2 : a < s.length) :
    pySlice s a b ≠ [] := by
  have hlen : (pySlice s a b).length = min (b - a) (s.length - a) := by
    simp [pySlice]
  intro he
  rw [he] at hlen
  simp at hlen
  omega

theorem tailStep_eq_of_not_last (sent : List Char) (c : Char) (i : Nat) (st : TokState)
    (hne : i ≠ sent.length - 1) : tailStep sent c i st = st := by
  unfold tailStep
  rw [if_neg]
  intro hc
  exact hne hc.1

/-- Away from the apostrophe branch, the character dispatch never appends
an empty token: the space and breaker text flushes are guarded by
non-emptiness of the slice, and the punctuation emissions are single
characters. -/
theorem charStep_no_empty (sent : List Char) (c : Char) (i : Nat) (st : TokState)
    (hc : c ≠ '\'') (hstart : st.start ≤ i) (hi : i < sent.length)
    (htok : ∀ t ∈ st.tokens, t ≠ "") :
    ∀ t ∈ (charStep sent c i st).tokens, t ≠ "" := by
  by_cases h1 : c = ' '
  · intro t ht
    unfold charStep at ht
    rw [if_pos h1] at ht
    by_cases h2 : pySlice sent st.start i ≠ []
    · rw [if_pos h2] at ht
      simp only [List.mem_append, List.mem_singleton] at ht
      rcases ht with h | h
      · exact htok t h
      · subst h
        exact lowerStr_ne_empty _ h2
    · rw [if_neg h2] at ht
      simp only [List.append_nil] at ht
      exact htok t ht
  · by_cases h2 : c = '\''
    · exact absurd h2 hc
    · by_cases h3 : c ∈ breakers
      · intro t ht
        unfold charStep at ht
        rw [if_neg h1, if_neg h2, if_pos h3] at ht
        by_cases h4 : st.start < i
        · rw [if_pos h4] at ht
          simp only [List.mem_append, List.mem_singleton] at ht
          rcases ht with (h | h) | h
          · exact htok t h
          · subst h
            exact lowerStr_ne_empty _ (pySlice_ne_empty sent st.start i h4 (by omega))
          · subst h
            exact lowerStr_ne_empty _ (pySlice_ne_empty sent i (i + 1) (by omega) hi)
        · rw [if_neg h4] at ht
          simp only [List.append_nil, List.nil_append, List.mem_append,
            List.mem_singleton] at ht
          rcases ht with h | h
          · exact htok t h
          · subst h
            exact lowerStr_ne_empty _ (pySlice_ne_empty sent i (i + 1) (by omega) hi)
      · by_cases h4 : c = '"' ∨ c = '“'
        · intro t ht
          unfold charStep at ht
          rw [if_neg h1, if_neg h2, if_neg h3, if_pos h4, if_pos hstart] at ht
          simp only [List.mem_append, List.mem_singleton] at ht
          rcases ht with h | h
          · exact htok t h
          · subst h
            exact lowerStr_ne_empty _ (pySlice_ne_empty sent i (i + 1) (by omega) hi)
        · intro t ht
          unfold charStep at ht
          rw [if_neg h1, if_neg h2, if_neg h3, if_neg h4] at ht
          exact htok t ht

/-- At the final iteration, if the last character is neither an apostrophe
nor one of `badLastChars`, no empty token is appended: either the final
character is a sentence ending (which suppresses the trailing flush and
emits itself), or it is ordinary and the trailing flush emits the pending
span, which still contains the final character. -/
theorem stepChain_no_empty_last (sent : List Char) (c : Char) (i : Nat) (st : TokState)
    (hlen : sent.length = i + 1) (hstart : st.start ≤ i) (hc_ap : c ≠ '\'')
    (hc_bad : c ∉ badLastChars) (htok : ∀ t ∈ st.tokens, t ≠ "") :
    ∀ t ∈ (tailStep sent c i (charStep sent c i st)).tokens, t ≠ "" := by
  by_cases hce : c ∈ endings
  · have heq : tailStep sent c i (charStep sent c i st) = charStep sent c i st := by
      unfold tailStep
      rw [if_neg]
      intro hcon
      exact hcon.2 hce
    rw [heq]
    exact charStep_no_empty sent c i st hc_ap hstart (by omega) htok
  · have hcb : c ∉ breakers := by
      intro hb
      rcases breakers_cases c hb with h | h
      · exact hce h
      · exact hc_bad h
    have hsp : ¬ c = ' ' := fun h => hc_bad (by rw [h]; decide)
    have hq : ¬ (c = '"' ∨ c = '“') := by
      rintro (h | h)
      · exact hce (by rw [h]; decide)
      · exact hc_bad (by rw [h]; decide)
    have hcs : charStep sent c i st = st := by
      unfold charStep
      rw [if_neg hsp, if_neg hc_ap, if_neg hcb, if_neg hq]
    rw [hcs]
    intro t ht
    unfold tailStep at ht
    rw [if_pos ⟨by omega, hce⟩] at ht
    simp only [List.mem_append, List.mem_singleton] at ht
    rcases ht with h | h
    · exact htok t h
    · subst h
      apply lowerStr_ne_empty
      intro hdrop
      have := congrArg List.length hdrop
      simp at this
      omega

/-- Invariant run for the no-empty-token property: if the remaining
characters contain no apostrophe and the final character is not one of
`badLastChars`, no empty token is ever appended. -/
theorem tokenizeAux_no_empty (sent : List Char) (off : Int × Int) (rem : List Char) :
    ∀ (i : Nat) (st : TokState),
      sent.length = i + rem.length → st.start ≤ i →
      (∀ t ∈ st.tokens, t ≠ "") → '\'' ∉ rem →
      (∀ c, rem.getLast? = some c → c ∉ badLastChars) →
      ∀ t ∈ (tokenizeAux sent off rem i st).tokens, t ≠ "" := by
  induction rem with
  | nil => intro i st _ _ htok _ _; exact htok
  | cons c rest ih =>
    intro i st hlen hstart htok hap hlast
    have hc_ap : c ≠ '\'' := by
      intro h
      exact hap (by rw [h]; exact List.mem_cons_self _ _)
    rcases rest with _ | ⟨c2, rest2⟩
    · -- final iteration
      have hlast_c : c ∉ badLastChars := hlast c (by simp)
      simp only [tokenizeAux]
      apply stepChain_no_empty_last sent c i (recordStep off i st)
        (by simp at hlen; omega) (by rw [recordStep_start]; exact hstart) hc_ap hlast_c
      rw [recordStep_tokens]
      exact htok
    · -- middle iteration: the trailing flush cannot fire
      simp only [tokenizeAux]
      refine ih (i + 1) _ ?_ ?_ ?_ ?_ ?_
      · simp at hlen ⊢
        omega
      · exact stepChain_start_le sent off c i st hstart
      · have hne : i ≠ sent.length - 1 := by
          simp at hlen
          omega
        rw [tailStep_eq_of_not_last sent c i _ hne]
        apply charStep_no_empty sent c i (recordStep off i st) hc_ap
          (by rw [recordStep_start]; exact hstart) (by simp at hlen; omega)
        rw [recordStep_tokens]
        exact htok
      · intro h
        exact hap (List.mem_cons_of_mem _ h)
      · intro c' hc'
        exact hlast c' (by rw [List.getLast?_cons_cons]; exact hc')

/-- Claim C4, amended: the space flush and the breaker text flush only emit
non-empty tokens and the punctuation rules emit one-character tokens, but
the apostrophe rule and the trailing flush append the pending slice
unconditionally and can emit empty tokens.  Hence for every sentence
containing no apostrophe and not ending in a space, a non-ending breaking
punctuation mark, or `“`, the tokenizer emits no empty token. -/
theorem claim4_amended (sent : List Char) (off : Int × Int)
    (h1 : '\'' ∉ sent) (h2 : ∀ c, sent.getLast? = some c → c ∉ badLastChars) :
    ∀ t ∈ (tokenize sent off).1, t ≠ "" := by
  unfold tokenize
  exact tokenizeAux_no_empty sent off sent 0 _ (by simp) (by simp)
    (by intro t ht; simp at ht) h1 h2

/-- Witness for Claim C4 (amended) at the sentence "ab cd.". -/
theorem claim4_witness : "" ∉ (tokenize "ab cd.".data (0, 0)).1 := by
  intro h
  refine claim4_amended "ab cd.".data (0, 0) (by decide) ?_ "" h rfl
  intro c hc
  rw [show List.getLast? "ab cd.".data = some '.' from rfl] at hc
  obtain rfl := Option.some.inj hc
  decide

end CWI

namespace CWI

/-- The ways a tab-split line violates the loader's expectations: a field
count other than the mode's (11 labeled / 7 test), or a numeric field that
fails to parse (offsets and annotator counts always; difficulty counts and
the two labels in labeled mode). -/
def badLine (flds : List String) (test : Bool) : Prop :=
  flds.length ≠ expectedFields test ∨
  parseInt (flds.getD 2 "") = none ∨ parseInt (flds.getD 3 "") = none ∨
  parseInt (flds.getD 5 "") = none ∨ parseInt (flds.getD 6 "") = none ∨
  (test = false ∧ (parseInt (flds.getD 7 "") = none ∨ parseInt (flds.getD 8 "") = none ∨
    parseInt (flds.getD 9 "") = none ∨ parseFloat (flds.getD 10 "") = none))

instance badLine_decidable (flds : List String) (test : Bool) :
    Decidable (badLine flds test) := by
  unfold badLine
  exact inferInstance

theorem mkLabeled_none (flds : List String)
    (h : parseInt (flds.getD 7 "") = none ∨ parseInt (flds.getD 8 "") = none ∨
      parseInt (flds.getD 9 "") = none ∨ parseFloat (flds.getD 10 "") = none) :
    mkLabeled flds = none := by
  rcases h with h | h | h | h <;>
    · cases h9 : parseInt (flds.getD 9 "") <;>
        cases h10 : parseFloat (flds.getD 10 "") <;>
          cases h7 : parseInt (flds.getD 7 "") <;>
            cases h8 : parseInt (flds.getD 8 "") <;>
              simp_all [mkLabeled]

theorem mkInstance_none (flds : List String) (test : Bool)
    (h : parseInt (flds.getD 2 "") = none ∨ parseInt (flds.getD 3 "") = none ∨
      parseInt (flds.getD 5 "") = none ∨ parseInt (flds.getD 6 "") = none ∨
      (test = false ∧ mkLabeled flds = none)) :
    mkInstance flds test = none := by
  rcases h with h | h | h | h | ⟨ht, h⟩ <;>
    · cases h2 : parseInt (flds.getD 2 "") <;>
        cases h3 : parseInt (flds.getD 3 "") <;>
          cases h5 : parseInt (flds.getD 5 "") <;>
            cases h6 : parseInt (flds.getD 6 "") <;>
              simp_all [mkInstance]

theorem mkInstances_none (test : Bool) (lines : List (List String)) (line : List String)
    (hmem : line ∈ lines) (hnone : mkInstance line test = none) :
    mkInstances test lines = none := by
  induction lines with
  | nil => cases hmem
  | cons l rest ih =>
    rcases List.mem_cons.mp hmem with rfl | hmem2
    · simp [mkInstances, hnone]
    · unfold mkInstances
      rw [ih hmem2]
      cases mkInstance l test <;> rfl

/-- A bad line anywhere in a file makes that file's load raise: either the
field-count `assert` fires, or some `int()`/`float()` call fails. -/
theorem loadFile_none (content : String) (test : Bool)
    (h : ∃ line ∈ splitLinesPy content, badLine (splitTab line) test) :
    loadFile content test = none := by
  obtain ⟨line, hmem, hbad⟩ := h
  have hmem2 : splitTab line ∈ (splitLinesPy content).map splitTab :=
    List.mem_map_of_mem _ hmem
  by_cases hall : ((splitLinesPy content).map splitTab).all
      (fun l => l.length = expectedFields test)
  · have hcount : (splitTab line).length = expectedFields test := by
      have := List.all_eq_true.mp hall _ hmem2
      simpa using this
    rcases hbad with hlen | hrest
    · exact absurd hcount hlen
    · have hni : mkInstance (splitTab line) test = none := by
        apply mkInstance_none
        rcases hrest with h | h | h | h | ⟨ht, h⟩
        · exact Or.inl h
        · exact Or.inr (Or.inl h)
        · exact Or.inr (Or.inr (Or.inl h))
        · exact Or.inr (Or.inr (Or.inr (Or.inl h)))
        · exact Or.inr (Or.inr (Or.inr (Or.inr ⟨ht, mkLabeled_none _ h⟩)))
      unfold loadFile
      rw [if_pos hall]
      exact mkInstances_none test _ _ hmem2 hni
  · unfold loadFile
    rw [if_neg hall]

/-- With a bad line in some listed readable file, `loadFiles` fails with
some error. -/
theorem loadFiles_err (fs : String → Option String) (test : Bool) (files : List String)
    (hbad : ∃ f ∈ files, ∃ c, fs f = some c ∧
      ∃ line ∈ splitLinesPy c, badLine (splitTab line) test) :
    ∃ e, loadFiles fs test files = .error e := by
  induction files with
  | nil => obtain ⟨f, hf, -⟩ := hbad; cases hf
  | cons f rest ih =>
    cases hc : fs f with
    | none => exact ⟨.ioError, by simp [loadFiles, hc]⟩
    | some c =>
      cases hlf : loadFile c test with
      | none => exact ⟨.formatError, by simp [loadFiles, hc, hlf]⟩
      | some insts =>
        obtain ⟨f', hf', c', hc', hlines⟩ := hbad
        rcases List.mem_cons.mp hf' with rfl | hrest
        · rw [hc] at hc'
          obtain rfl := Option.some.inj hc'
          exact absurd (loadFile_none c test hlines) (by rw [hlf]; simp)
        · obtain ⟨e, he⟩ := ih ⟨f', hrest, c', hc', hlines⟩
          exact ⟨e, by simp [loadFiles, hc, hlf, he]⟩

/-- When every listed file is readable, the failure is the `FormatError`. -/
theorem loadFiles_err_format (fs : String → Option String) (test : Bool)
    (files : List String) (hread : ∀ f ∈ files, ∃ c, fs f = some c)
    (hbad : ∃ f ∈ files, ∃ c, fs f = some c ∧
      ∃ line ∈ splitLinesPy c, badLine (splitTab line) test) :
    loadFiles fs test files = .error .formatError := by
  induction files with
  | nil => obtain ⟨f, hf, -⟩ := hbad; cases hf
  | cons f rest ih =>
    obtain ⟨c, hc⟩ := hread f (List.mem_cons_self f rest)
    cases hlf : loadFile c test with
    | none => simp [loadFiles, hc, hlf]
    | some insts =>
      obtain ⟨f', hf', c', hc', hlines⟩ := hbad
      rcases List.mem_cons.mp hf' with rfl | hrest
      · rw [hc] at hc'
        obtain rfl := Option.some.inj hc'
        exact absurd (loadFile_none c test hlines) (by rw [hlf]; simp)
      · have he := ih (fun g hg => hread g (List.mem_cons_of_mem f hg))
          ⟨f', hrest, c', hc', hlines⟩
        simp [loadFiles, hc, hlf, he]

/-- Claim C5: whenever any line of any listed (readable) file has a field
count different from the mode's expectation (11 labeled / 7 test) or a
numeric field that fails to parse, `load` returns no Dataset; and if every
listed file is readable the failure is the `FormatError`. -/
theorem claim5_bad_line_fails (fs : String → Option String) (files : List String)
    (test : Bool)
    (hbad : ∃ f ∈ files, ∃ c, fs f = some c ∧
      ∃ line ∈ splitLinesPy c, badLine (splitTab line) test) :
    (∀ d, load fs files test ≠ .ok d) ∧
      ((∀ f ∈ files, ∃ c, fs f = some c) → load fs files test = .error .formatError) := by
  constructor
  · intro d hd
    obtain ⟨e, he⟩ := loadFiles_err fs test files hbad
    unfold load at hd
    rw [he] at hd
    exact Except.noConfusion hd
  · intro hread
    have he := loadFiles_err_format fs test files hread hbad
    unfold load
    rw [he]

/-- A labeled-mode line with only 10 fields. -/
def tenFieldContent : String := "H1\tThe cat's toy.\t4\t9\tcat's \t5\t2\t1\t0\t1"

/-- A one-file filesystem holding `tenFieldContent`. -/
def tenFieldFs : String → Option String :=
  fun f => if f = "train.tsv" then some tenFieldContent else none

/-- Witness for Claim C5: the 10-field line in labeled mode fails with the
`FormatError`. -/
theorem claim5_witness : load tenFieldFs ["train.tsv"] false = .error .formatError :=
  (claim5_bad_line_fails tenFieldFs ["train.tsv"] false
    ⟨"train.tsv", by simp, tenFieldContent, rfl, tenFieldContent, by decide, by decide⟩).2
    (fun f hf => by rw [List.mem_singleton.mp hf]; exact ⟨tenFieldContent, rfl⟩)

end CWI

namespace CWI

theorem extractLabels_spec (l : List Instance) (labs : List (Int × ℚ))
    (h : extractLabels l = some labs) :
    labs.length = l.length ∧
      ∀ i inst, l.get? i = some inst →
        ∃ lab, inst.label = some lab ∧ labs.get? i = some lab := by
  induction l generalizing labs with
  | nil =>
    obtain rfl : labs = [] := by simpa [extractLabels] using h.symm
    refine ⟨rfl, ?_⟩
    intro i inst hi
    simp at hi
  | cons inst0 rest ih =>
    cases hl : inst0.label with
    | none => simp [extractLabels, hl] at h
    | some lab =>
      cases hr : extractLabels rest with
      | none => simp [extractLabels, hl, hr] at h
      | some labs2 =>
        have h2 : lab :: labs2 = labs := by simpa [extractLabels, hl, hr] using h
        subst h2
        obtain ⟨hlen, hidx⟩ := ih labs2 hr
        refine ⟨by simp [hlen], ?_⟩
        intro i inst hi
        cases i with
        | zero =>
          simp only [List.get?_cons_zero] at hi ⊢
          obtain rfl := Option.some.inj hi
          exact ⟨lab, hl, rfl⟩
        | succ n =>
          simp only [List.get?_cons_succ] at hi ⊢
          exact hidx n inst hi

/-- Claim C7: for every Dataset loaded in labeled (non-test) mode, the two
label arrays are parallel to `instances`, and element `i` of each equals
the corresponding component of `instances[i].label`. -/
theorem claim7_parallel_labels (fs : String → Option String) (files : List String)
    (d : Dataset) (h : load fs files false = .ok d) :
    d.y.length = d.instances.length ∧ d.y_prob.length = d.instances.length ∧
      ∀ i inst, d.instances.get? i = some inst →
        ∃ b p, inst.label = some (b, p) ∧
          d.y.get? i = some b ∧ d.y_prob.get? i = some p := by
  unfold load at h
  split at h
  · exact Except.noConfusion h
  · rename_i instances heq
    rw [if_neg (by simp)] at h
    split at h
    · exact Except.noConfusion h
    · rename_i labs hlabs
      obtain rfl := Except.ok.inj h
      obtain ⟨hlen, hidx⟩ := extractLabels_spec instances labs hlabs
      refine ⟨by simp [hlen], by simp [hlen], ?_⟩
      intro i inst hi
      obtain ⟨lab, hlab, hgl⟩ := hidx i inst hi
      refine ⟨lab.1, lab.2, ?_, ?_, ?_⟩
      · rw [hlab]
      · rw [List.get?_map, hgl]
        rfl
      · rw [List.get?_map, hgl]
        rfl

/-- The raw content of the spec's example line. -/
def sampleContent : String := "H1\tThe cat's toy.\t4\t9\tcat's \t5\t2\t1\t0\t1\t0.33"

/-- A one-file filesystem holding `sampleContent`. -/
def sampleFs : String → Option String :=
  fun f => if f = "train.tsv" then some sampleContent else none

/-- The Dataset produced from `sampleFs` in labeled mode. -/
def sampleDataset : Dataset :=
  { instances := [sampleInstance], y := [1], y_prob := [mkRat 33 100], test := false }

/-- Witness for Claim C7 at the one-line sample corpus. -/
theorem claim7_witness : sampleDataset.y.length = sampleDataset.instances.length :=
  (claim7_parallel_labels sampleFs ["train.tsv"] sampleDataset (by rfl)).1

theorem mkInstances_spec (test : Bool) (lines : List (List String)) (insts : List Instance)
    (h : mkInstances test lines = some insts) :
    insts.length = lines.length ∧
      ∀ i, insts.get? i = (lines.get? i).bind (fun line => mkInstance line test) := by
  induction lines generalizing insts with
  | nil =>
    obtain rfl : insts = [] := by simpa [mkInstances] using h.symm
    refine ⟨rfl, ?_⟩
    intro i
    simp
  | cons line rest ih =>
    cases hm : mkInstance line test with
    | none => simp [mkInstances, hm] at h
    | some inst0 =>
      cases hr : mkInstances test rest with
      | none => simp [mkInstances, hm, hr] at h
      | some insts2 =>
        have h2 : inst0 :: insts2 = insts := by simpa [mkInstances, hm, hr] using h
        subst h2
        obtain ⟨hlen, hidx⟩ := ih insts2 hr
        refine ⟨by simp [hlen], ?_⟩
        intro i
        cases i with
        | zero => simp [hm]
        | succ n =>
          simp only [List.get?_cons_succ]
          exact hidx n

theorem loadFile_spec (content : String) (test : Bool) (insts : List Instance)
    (h : loadFile content test = some insts) :
    mkInstances test ((splitLinesPy content).map splitTab) = some insts := by
  simp only [loadFile] at h
  split_ifs at h
  exact h

/-- Claim C8: the loader constructs exactly one Instance per input line
(element `i` of a file's instance list is the parse of line `i`) and
concatenates per-file lists in listed order: for two readable files the
result is file 1's instances followed by file 2's. -/
theorem claim8_per_line_order (fs : String → Option String) (test : Bool)
    (f1 f2 c1 c2 : String) (l1 l2 : List Instance)
    (h1 : fs f1 = some c1) (h2 : fs f2 = some c2)
    (h3 : loadFile c1 test = some l1) (h4 : loadFile c2 test = some l2) :
    loadFiles fs test [f1, f2] = .ok (l1 ++ l2) ∧
      l1.length = (splitLinesPy c1).length ∧ l2.length = (splitLinesPy c2).length ∧
      (∀ i, l1.get? i = (((splitLinesPy c1).map splitTab).get? i).bind
        (fun line => mkInstance line test)) ∧
      (∀ i, l2.get? i = (((splitLinesPy c2).map splitTab).get? i).bind
        (fun line => mkInstance line test)) := by
  obtain ⟨hlen1, hidx1⟩ := mkInstances_spec test _ l1 (loadFile_spec c1 test l1 h3)
  obtain ⟨hlen2, hidx2⟩ := mkInstances_spec test _ l2 (loadFile_spec c2 test l2 h4)
  refine ⟨?_, ?_, ?_, hidx1, hidx2⟩
  · simp [loadFiles, h1, h2, h3, h4]
  · simpa using hlen1
  · simpa using hlen2

/-- A second labeled line for the two-file scenario. -/
def otherContent : String := "H2\tHello world.\t0\t5\tHello\t3\t4\t2\t1\t1\t0.5"

/-- The instance parsed from `otherContent`. -/
def otherInstance : Instance :=
  buildInstance "H2" "Hello world." "Hello" (0, 5) (3, 4) (some (2, 1))
    (some (1, mkRat 5 10))

/-- A two-file filesystem with one line per file. -/
def twoFileFs : String → Option String :=
  fun f =>
    if f = "a.tsv" then some sampleContent
    else if f = "b.tsv" then some otherContent
    else none

/-- Witness for Claim C8: two distinct one-line files load to exactly two
instances, file 1's line first. -/
theorem claim8_witness :
    loadFiles twoFileFs false ["a.tsv", "b.tsv"] =
      .ok ([sampleInstance] ++ [otherInstance]) :=
  (claim8_per_line_order twoFileFs false "a.tsv" "b.tsv" sampleContent otherContent
    [sampleInstance] [otherInstance] rfl rfl (by rfl) (by rfl)).1

/-- Claim C9: `load` is a deterministic function of the listed files'
contents, the mode, and the file order — two loads over filesystems that
agree on every listed file produce equal results (in particular, equal
`instances`). -/
theorem claim9_deterministic (fs1 fs2 : String → Option String) (files : List String)
    (test : Bool) (h : ∀ f ∈ files, fs1 f = fs2 f) :
    load fs1 files test = load fs2 files test := by
  have hlf : loadFiles fs1 test files = loadFiles fs2 test files := by
    induction files with
    | nil => rfl
    | cons f rest ih =>
      simp only [loadFiles]
      rw [h f (List.mem_cons_self f rest),
        ih (fun g hg => h g (List.mem_cons_of_mem f hg))]
  unfold load
  rw [hlf]

/-- A filesystem that agrees with `sampleFs` on "train.tsv" only. -/
def noisyFs : String → Option String :=
  fun f => if f = "train.tsv" then some sampleContent else some ""

/-- Witness for Claim C9: the two loads agree although the filesystems
differ away from the listed file. -/
theorem claim9_witness :
    load sampleFs ["train.tsv"] false = load noisyFs ["train.tsv"] false :=
  claim9_deterministic sampleFs noisyFs ["train.tsv"] false
    (fun f hf => by rw [List.mem_singleton.mp hf]; rfl)

end CWI
